import Mathlib

/-!
Verification of the per-user posts cache of the lucid-assignment backend.

The code under study is `app/utils/cache.py` (a `cachetools.TTLCache`
with `maxsize = 1000` and `ttl = 300` seconds wrapped by `CacheService`)
and the write path in `app/services/post_service.py`.

Shallow embedding conventions:
* time is an abstract natural-number clock `t`, passed explicitly where
  the Python code consults `time.monotonic` or `datetime.utcnow`;
* the `TTLCache` is modelled as the list of its links in link order
  (oldest written first): on every write the written link moves to the
  back with a fresh expiry `t + ttl`, expired links are swept before a
  write, and eviction pops the front link;
* Python exceptions are made explicit with `Except`/`Option PyErr`
  values, and the `try`/`except` blocks of the source are translated as
  matches on those values.
-/

namespace PostsCacheModel

/-- `maxsize=1000` from `posts_cache = TTLCache(maxsize=1000, ttl=300)`. -/
def maxsize : Nat := 1000

/-- `ttl=300` (seconds) from `posts_cache = TTLCache(maxsize=1000, ttl=300)`. -/
def ttl : Nat := 300

/-- One link of the `TTLCache`: the stored key and value together with the
absolute expiry instant the library records for the link
(`link.expires = time + ttl` at write time). -/
structure Entry (β : Type) where
  key : String
  value : β
  expires : Nat
deriving DecidableEq, Repr

/-- The `TTLCache` contents in link order, oldest written link first. -/
abbrev TTLState (β : Type) := List (Entry β)

/-- Exceptions the modelled library code can raise. -/
inductive PyErr where
  | keyError
  | valueError
deriving DecidableEq, Repr

/-- `TTLCache.expire`: drop every link whose expiry has been reached
(the library keeps a link exactly while `time < link.expires`). -/
def expire (t : Nat) (c : TTLState β) : TTLState β :=
  c.filter (fun e => t < e.expires)

/-- Look up the link stored under key `k` (the dictionary access on the
cache's key-to-link mapping). -/
def findEntry (k : String) (c : TTLState β) : Option (Entry β) :=
  c.find? (fun e => e.key == k)

/-- `TTLCache.__getitem__`: raises `KeyError` when the key is missing, and
likewise (via `__missing__`) when the link is present but already expired;
no sweep happens on a read. -/
def getItemRaw (t : Nat) (k : String) (c : TTLState β) : Except PyErr β :=
  match findEntry k c with
  | none => .error .keyError
  | some e => if t < e.expires then .ok e.value else .error .keyError

/-- `Cache.get`: `try: return self[key] except KeyError: return None`. -/
def getItem (t : Nat) (k : String) (c : TTLState β) : Option β :=
  match getItemRaw t k c with
  | .ok v => some v
  | .error _ => none

/-- Remove every link stored under key `k`. -/
def removeKey (k : String) (c : TTLState β) : TTLState β :=
  c.filter (fun e => e.key != k)

/-- `TTLCache.__setitem__` with the library's error cases explicit:
`Cache.__setitem__` raises `ValueError` when a single item is larger than
`maxsize`, and the eviction loop's `popitem` raises `KeyError` on an empty
cache.  Otherwise: sweep expired links, then either overwrite an existing
key (no eviction) or insert a new key, evicting the oldest surviving link
first when the cache is at capacity; the written link goes to the back of
the link order with expiry `t + ttl`. -/
def setItemE (t : Nat) (k : String) (v : β) (c : TTLState β) :
    Except PyErr (TTLState β) :=
  if maxsize < 1 then .error .valueError
  else if (findEntry k (expire t c)).isSome then
    .ok (removeKey k (expire t c) ++ [⟨k, v, t + ttl⟩])
  else if maxsize ≤ (expire t c).length then
    match expire t c with
    | [] => .error .keyError
    | _ :: rest => .ok (rest ++ [⟨k, v, t + ttl⟩])
  else
    .ok (expire t c ++ [⟨k, v, t + ttl⟩])

/-- `TTLCache.__setitem__`, state-level result. -/
def setItem (t : Nat) (k : String) (v : β) (c : TTLState β) : TTLState β :=
  if (findEntry k (expire t c)).isSome then
    removeKey k (expire t c) ++ [⟨k, v, t + ttl⟩]
  else if maxsize ≤ (expire t c).length then
    (expire t c).drop 1 ++ [⟨k, v, t + ttl⟩]
  else
    expire t c ++ [⟨k, v, t + ttl⟩]

/-- `TTLCache.__delitem__`: resulting state plus the `KeyError` it raises
when the key is missing (nothing removed) or when the removed link had
already expired (removed, then raised). -/
def delItem (t : Nat) (k : String) (c : TTLState β) :
    TTLState β × Option PyErr :=
  match findEntry k c with
  | none => (c, some .keyError)
  | some e =>
      (removeKey k c, if t < e.expires then none else some .keyError)

/-- `MutableMapping.clear`: pop until empty. -/
def clearAll (_c : TTLState β) : TTLState β := []

/-- `len(posts_cache)`: the number of links that have not expired. -/
def cacheLen (t : Nat) (c : TTLState β) : Nat := (expire t c).length

/-! ### The `CacheService` layer (`app/utils/cache.py`) -/

/-- `CacheService.get_user_posts_cache_key`: the f-string
`user_posts_` followed by the decimal rendering of `user_id`. -/
def get_user_posts_cache_key (user_id : Nat) : String :=
  "user_posts_" ++ Nat.repr user_id

/-- The dictionary `CacheService.cache_user_posts` stores as the cache
value: the posts payload plus the bookkeeping timestamps. -/
structure CachedEntry (α : Type) where
  data : α
  cached_at : Nat
  expires_at : Nat
deriving DecidableEq, Repr

/-- The state of the module-level `posts_cache` used by `CacheService`. -/
abbrev PostsCache (α : Type) := TTLState (CachedEntry α)

/-- `CacheService.get_cached_posts`: read the entry through `Cache.get`;
the stored wrapper dictionary is always nonempty, hence truthy, so the
`if cached_data:` test returns it exactly when the read was a hit. -/
def get_cached_posts (t : Nat) (user_id : Nat) (c : PostsCache α) :
    Option (CachedEntry α) :=
  match getItem t (get_user_posts_cache_key user_id) c with
  | some cached_data => some cached_data
  | none => none

/-- `CacheService.cache_user_posts`: store the wrapper dictionary with
`cached_at = utcnow()` and `expires_at = utcnow() + timedelta(minutes=5)`
under the user's key. -/
def cache_user_posts (t : Nat) (user_id : Nat) (posts_data : α)
    (c : PostsCache α) : PostsCache α :=
  setItem t (get_user_posts_cache_key user_id) ⟨posts_data, t, t + 300⟩ c

/-- `CacheService.cache_user_posts` with the library's possible errors
propagated (the source wraps it in no `try` block). -/
def cache_user_postsE (t : Nat) (user_id : Nat) (posts_data : α)
    (c : PostsCache α) : Except PyErr (PostsCache α) :=
  setItemE t (get_user_posts_cache_key user_id) ⟨posts_data, t, t + 300⟩ c

/-- `CacheService.invalidate_user_posts_cache`:
`try: del posts_cache[cache_key] except KeyError: pass`. -/
def invalidate_user_posts_cache (t : Nat) (user_id : Nat)
    (c : PostsCache α) : PostsCache α :=
  (delItem t (get_user_posts_cache_key user_id) c).1

/-- `CacheService.invalidate_user_posts_cache` with its `except KeyError`
clause translated on the explicit error value: a raised `KeyError` is
swallowed, any other exception would propagate. -/
def invalidate_user_posts_cacheE (t : Nat) (user_id : Nat)
    (c : PostsCache α) : Except PyErr (PostsCache α) :=
  match delItem t (get_user_posts_cache_key user_id) c with
  | (c', some .keyError) => .ok c'
  | (_, some e) => .error e
  | (c', none) => .ok c'

/-- `CacheService.clear_all_cache`. -/
def clear_all_cache (c : PostsCache α) : PostsCache α := clearAll c

/-- `CacheService.clear_all_cache` never raises (the underlying
`MutableMapping.clear` stops on the `KeyError` of an empty pop). -/
def clear_all_cacheE (c : PostsCache α) : Except PyErr (PostsCache α) :=
  .ok (clear_all_cache c)

/-- The dictionary returned by `CacheService.get_cache_info`. -/
structure CacheInfo where
  cache_size : Nat
  max_size : Nat
  ttl_seconds : Nat
  current_time : Nat
deriving DecidableEq, Repr

/-- `CacheService.get_cache_info`. -/
def get_cache_info (t : Nat) (c : PostsCache α) : CacheInfo :=
  ⟨cacheLen t c, maxsize, ttl, t⟩

/-- `CacheService.get_cache_info` raises nothing. -/
def get_cache_infoE (t : Nat) (c : PostsCache α) : Except PyErr CacheInfo :=
  .ok (get_cache_info t c)

/-- `CacheService.get_cached_posts` with the source's outer
`except KeyError: pass` translated: `Cache.get` already swallows every
`KeyError`, so the operation always returns normally. -/
def get_cached_postsE (t : Nat) (user_id : Nat) (c : PostsCache α) :
    Except PyErr (Option (CachedEntry α)) :=
  .ok (get_cached_posts t user_id c)

/-! ### Mutating-operation traces over the shared `posts_cache` -/

/-- One mutating call into `CacheService` (reads do not change the state). -/
inductive CacheOp (α : Type) where
  | put (user_id : Nat) (posts_data : α)
  | invalidate (user_id : Nat)
  | clear
deriving DecidableEq, Repr

/-- Apply one timestamped mutating call. -/
def applyOp (p : Nat × CacheOp α) (c : PostsCache α) : PostsCache α :=
  match p.2 with
  | .put u d => cache_user_posts p.1 u d c
  | .invalidate u => invalidate_user_posts_cache p.1 u c
  | .clear => clear_all_cache c

/-- Run a timestamped sequence of mutating calls, oldest first. -/
def runOps (tr : List (Nat × CacheOp α)) (c : PostsCache α) : PostsCache α :=
  tr.foldl (fun c p => applyOp p c) c

/-! ### The post service layer (`app/services/post_service.py`)

The database session is modelled as the list of `Post` rows; the commit
outcome of the external database is injected as a parameter, and the calls
the service makes on its collaborators are recorded as an event list. -/

/-- A row of the `posts` table (`app/models/post.py`). -/
structure Post where
  id : Nat
  user_id : Nat
  text : String
  created_at : Nat
  updated_at : Nat
deriving DecidableEq, Repr

/-- `PostResponse` (`app/schemas/post.py`). -/
structure PostResponse where
  id : Nat
  text : String
  user_id : Nat
  created_at : Nat
  updated_at : Nat
deriving DecidableEq, Repr

/-- `PostResponse.from_orm`. -/
def PostResponse.from_orm (p : Post) : PostResponse :=
  ⟨p.id, p.text, p.user_id, p.created_at, p.updated_at⟩

/-- `PostsListResponse` (`app/schemas/post.py`). -/
structure PostsListResponse where
  posts : List PostResponse
  total_count : Nat
deriving DecidableEq, Repr

/-- The calls `PostService` makes on the database session and the cache,
in program order. -/
inductive DbEvent where
  | add (p : Post)
  | commit
  | refresh (p : Post)
  | rollback
  | delete (p : Post)
  | invalidateCache (user_id : Nat)
deriving DecidableEq, Repr

/-- The `HTTPException`s the service raises. -/
inductive HttpError where
  | badRequest
  | internalServerError
deriving DecidableEq, Repr

/-- Outcome of the external database commit, injected as a parameter:
success, an `IntegrityError`, or any other exception. -/
inductive CommitResult where
  | ok
  | integrityError
  | otherError
deriving DecidableEq, Repr

/-- Result of one service call: the database rows and cache afterwards,
the recorded collaborator calls, and the returned value or raised error. -/
structure ServiceOutcome (ρ : Type) where
  db : List Post
  cache : PostsCache PostsListResponse
  events : List DbEvent
  result : Except HttpError ρ

/-- `PostService.create_post`: build the row, `db.add`, `db.commit`,
`db.refresh`, then invalidate the user's cache entry; on `IntegrityError`
roll back and raise 400, on any other exception roll back and raise 500.
`newId`/`createdAt` stand for the autoincrement id and `func.now()`
timestamp the database assigns. -/
def create_post (cr : CommitResult) (db : List Post) (user_id : Nat)
    (post_text : String) (newId createdAt t : Nat)
    (cache : PostsCache PostsListResponse) : ServiceOutcome Post :=
  let db_post : Post := ⟨newId, user_id, post_text, createdAt, createdAt⟩
  match cr with
  | .ok =>
      { db := db ++ [db_post]
        cache := invalidate_user_posts_cache t user_id cache
        events := [.add db_post, .commit, .refresh db_post,
          .invalidateCache user_id]
        result := .ok db_post }
  | .integrityError =>
      { db := db, cache := cache
        events := [.add db_post, .rollback]
        result := .error .badRequest }
  | .otherError =>
      { db := db, cache := cache
        events := [.add db_post, .rollback]
        result := .error .internalServerError }

/-- `PostService.get_post_by_id`: first row matching both the post id and
the owning user id. -/
def get_post_by_id (db : List Post) (post_id user_id : Nat) : Option Post :=
  db.find? (fun p => p.id == post_id && p.user_id == user_id)

/-- `PostService.delete_post`: look the row up by post id and owner; when
absent return `False` straight away; otherwise `db.delete`, `db.commit`,
then invalidate the user's cache entry; any exception rolls back and
raises 500. -/
def delete_post (cr : CommitResult) (db : List Post) (post_id user_id t : Nat)
    (cache : PostsCache PostsListResponse) : ServiceOutcome Bool :=
  match db.find? (fun p => p.id == post_id && p.user_id == user_id) with
  | none => { db := db, cache := cache, events := [], result := .ok false }
  | some post =>
      match cr with
      | .ok =>
          { db := db.filter (fun q => q.id != post.id)
            cache := invalidate_user_posts_cache t user_id cache
            events := [.delete post, .commit, .invalidateCache user_id]
            result := .ok true }
      | _ =>
          { db := db, cache := cache
            events := [.delete post, .rollback]
            result := .error .internalServerError }

/-- Checks, scanning an event list left to right with a seen-a-commit
flag, that every `invalidateCache` call for `user_id` happens strictly
after some `commit`. -/
def invalidate_after_commit (user_id : Nat) :
    List DbEvent → Bool → Bool
  | [], _ => true
  | e :: rest, seen =>
      match e with
      | .commit => invalidate_after_commit user_id rest true
      | .invalidateCache v =>
          (seen || v != user_id) && invalidate_after_commit user_id rest seen
      | _ => invalidate_after_commit user_id rest seen

/-! ### Concrete states used by the closed witness statements -/

/-- A cache filled with 1000 distinct live entries (users 0..999,
all written with link expiry 1). -/
def fullCache : PostsCache Nat :=
  (List.range 1000).map
    (fun i => ⟨get_user_posts_cache_key i, ⟨i, 0, 300⟩, 1⟩)

/-! ### Injectivity of the decimal cache key -/

/-- Numeric value of one decimal digit character. -/
def charVal (c : Char) : Nat := c.toNat - 48

/-- Numeric value of a decimal digit string, most significant first. -/
def digitsVal (cs : List Char) : Nat :=
  cs.foldl (fun a c => a * 10 + charVal c) 0

theorem toDigitsCore_eq_append (fuel : Nat) :
    ∀ (n : Nat) (ds : List Char),
      Nat.toDigitsCore 10 fuel n ds = Nat.toDigitsCore 10 fuel n [] ++ ds := by
  induction fuel with
  | zero => intro n ds; rfl
  | succ f ih =>
      intro n ds
      simp only [Nat.toDigitsCore]
      by_cases h : n / 10 = 0
      · simp [h]
      · rw [if_neg h, if_neg h, ih (n / 10) ((n % 10).digitChar :: ds),
          ih (n / 10) [(n % 10).digitChar], List.append_assoc]
        rfl

theorem digitsVal_append_digit (cs : List Char) (c : Char) :
    digitsVal (cs ++ [c]) = digitsVal cs * 10 + charVal c := by
  simp [digitsVal, List.foldl_append]

theorem charVal_digitChar : ∀ d : Nat, d < 10 → charVal d.digitChar = d := by
  decide

theorem digitsVal_toDigitsCore (fuel : Nat) :
    ∀ n : Nat, n < fuel → digitsVal (Nat.toDigitsCore 10 fuel n []) = n := by
  induction fuel with
  | zero => intro n h; exact absurd h (Nat.not_lt_zero n)
  | succ f ih =>
      intro n h
      simp only [Nat.toDigitsCore]
      by_cases h0 : n / 10 = 0
      · rw [if_pos h0]
        have hlt : n % 10 < 10 := Nat.mod_lt _ (by norm_num)
        have : digitsVal [(n % 10).digitChar] = n % 10 := by
          simp [digitsVal, charVal_digitChar _ hlt]
        rw [this]
        omega
      · rw [if_neg h0, toDigitsCore_eq_append, digitsVal_append_digit,
          ih (n / 10) (by omega),
          charVal_digitChar _ (Nat.mod_lt _ (by norm_num))]
        omega

theorem digitsVal_toDigits (n : Nat) :
    digitsVal (Nat.toDigits 10 n) = n :=
  digitsVal_toDigitsCore (n + 1) n (Nat.lt_succ_self n)

theorem natRepr_injective {m n : Nat} (h : Nat.repr m = Nat.repr n) :
    m = n := by
  have hd : Nat.toDigits 10 m = Nat.toDigits 10 n := congrArg String.data h
  have := congrArg digitsVal hd
  rwa [digitsVal_toDigits, digitsVal_toDigits] at this

theorem get_user_posts_cache_key_injective {u v : Nat}
    (h : get_user_posts_cache_key u = get_user_posts_cache_key v) : u = v := by
  apply natRepr_injective
  apply String.ext
  have hd := congrArg String.data h
  rw [get_user_posts_cache_key, get_user_posts_cache_key,
    String.data_append, String.data_append] at hd
  exact List.append_cancel_left hd

theorem get_user_posts_cache_key_ne {u v : Nat} (h : u ≠ v) :
    get_user_posts_cache_key u ≠ get_user_posts_cache_key v :=
  fun hk => h (get_user_posts_cache_key_injective hk)

/-! ### Toolkit lemmas about the cache model -/

theorem find?_filter_of_imp {α : Type _} {p q : α → Bool} (l : List α)
    (h : ∀ x, p x = true → q x = true) :
    (l.filter q).find? p = l.find? p := by
  induction l with
  | nil => rfl
  | cons a l ih =>
      by_cases hq : q a = true
      · by_cases hp : p a = true
        · simp [List.filter_cons_of_pos hq, List.find?_cons, hp]
        · simp [List.filter_cons_of_pos hq, List.find?_cons, hp, ih]
      · have hp : p a = false := by
          cases hpa : p a
          · rfl
          · exact absurd (h a hpa) hq
        rw [List.filter_cons_of_neg (by simp [hq]), ih, List.find?_cons, hp]

theorem findEntry_removeKey_ne {β : Type _} {k k' : String} (h : k ≠ k')
    (c : TTLState β) :
    findEntry k (removeKey k' c) = findEntry k c := by
  unfold findEntry removeKey
  apply find?_filter_of_imp
  intro x hx
  have hxk : x.key = k := by simpa using hx
  simp [hxk, h]

theorem mem_expire {β : Type _} {t : Nat} {x : Entry β} {c : TTLState β}
    (h : x ∈ expire t c) : x ∈ c ∧ t < x.expires := by
  simpa [expire, List.mem_filter] using h

theorem mem_removeKey {β : Type _} {k : String} {x : Entry β} {c : TTLState β}
    (h : x ∈ removeKey k c) : x ∈ c ∧ x.key ≠ k := by
  have hx := List.mem_filter.1 h
  exact ⟨hx.1, by simpa using hx.2⟩

theorem findEntry_eq_none_iff {β : Type _} {k : String} {c : TTLState β} :
    findEntry k c = none ↔ ∀ x ∈ c, x.key ≠ k := by
  unfold findEntry
  rw [List.find?_eq_none]
  constructor
  · intro h x hx
    have := h x hx
    simpa using this
  · intro h x hx
    simpa using h x hx

theorem getItem_eq_none_of_findEntry_none {β : Type _} {t : Nat} {k : String}
    {c : TTLState β} (h : findEntry k c = none) : getItem t k c = none := by
  unfold getItem getItemRaw
  rw [h]

theorem getItem_eq_none_of_dead {β : Type _} {t : Nat} {k : String}
    {c : TTLState β} (h : ∀ x ∈ c, x.key = k → x.expires ≤ t) :
    getItem t k c = none := by
  unfold getItem getItemRaw
  cases hf : findEntry k c with
  | none => rfl
  | some e =>
      have he : e ∈ c := List.mem_of_find?_eq_some hf
      have hk : e.key = k := by simpa using List.find?_some hf
      have hle := h e he hk
      have hlt : ¬ t < e.expires := by omega
      simp [hlt]

theorem getItem_congr {β : Type _} {t : Nat} {k : String} {c c' : TTLState β}
    (h : findEntry k c = findEntry k c') :
    getItem t k c = getItem t k c' := by
  unfold getItem getItemRaw
  rw [h]

theorem findEntry_append {β : Type _} (k : String) (l1 l2 : TTLState β) :
    findEntry k (l1 ++ l2) = (findEntry k l1).or (findEntry k l2) :=
  List.find?_append

theorem setItem_split {β : Type _} (t : Nat) (k : String) (v : β)
    (c : TTLState β) :
    ∃ rest, setItem t k v c = rest ++ [⟨k, v, t + ttl⟩]
      ∧ (∀ x ∈ rest, x ∈ expire t c)
      ∧ ∀ x ∈ rest, x.key ≠ k := by
  unfold setItem
  by_cases h1 : (findEntry k (expire t c)).isSome
  · refine ⟨removeKey k (expire t c), by rw [if_pos h1], ?_, ?_⟩
    · intro x hx
      exact (mem_removeKey hx).1
    · intro x hx
      exact (mem_removeKey hx).2
  · have habs : ∀ x ∈ expire t c, x.key ≠ k := by
      apply findEntry_eq_none_iff.1
      cases hh : findEntry k (expire t c)
      · rfl
      · exact absurd (by simp [hh]) h1
    by_cases h2 : maxsize ≤ (expire t c).length
    · refine ⟨(expire t c).drop 1, by rw [if_neg h1, if_pos h2], ?_, ?_⟩
      · intro x hx
        exact List.drop_subset _ _ hx
      · intro x hx
        exact habs x (List.drop_subset _ _ hx)
    · exact ⟨expire t c, by rw [if_neg h1, if_neg h2], fun x hx => hx, habs⟩

theorem findEntry_setItem_self {β : Type _} (t : Nat) (k : String) (v : β)
    (c : TTLState β) :
    findEntry k (setItem t k v c) = some ⟨k, v, t + ttl⟩ := by
  obtain ⟨rest, heq, -, hkey⟩ := setItem_split t k v c
  rw [heq, findEntry_append, findEntry_eq_none_iff.2 hkey]
  simp [findEntry, List.find?_cons]

theorem getItem_setItem_self {β : Type _} (t t' : Nat) (k : String) (v : β)
    (c : TTLState β) :
    getItem t' k (setItem t k v c) = if t' < t + ttl then some v else none := by
  unfold getItem getItemRaw
  rw [findEntry_setItem_self]
  by_cases h : t' < t + ttl
  · simp [h]
  · simp [h]

theorem mem_setItem {β : Type _} {t : Nat} {k : String} {v : β}
    {x : Entry β} {c : TTLState β}
    (h : x ∈ setItem t k v c) : x ∈ c ∨ x = ⟨k, v, t + ttl⟩ := by
  obtain ⟨rest, heq, hsub, -⟩ := setItem_split t k v c
  rw [heq] at h
  rcases List.mem_append.1 h with h | h
  · exact Or.inl (mem_expire (hsub x h)).1
  · simp at h
    exact Or.inr h

theorem setItem_length_le {β : Type _} (t : Nat) (k : String) (v : β)
    (c : TTLState β) (h : c.length ≤ maxsize) :
    (setItem t k v c).length ≤ maxsize := by
  have hm : maxsize = 1000 := rfl
  have hc1 : (expire t c).length ≤ maxsize :=
    le_trans (List.length_filter_le _ _) h
  unfold setItem
  by_cases h1 : (findEntry k (expire t c)).isSome
  · rw [if_pos h1]
    obtain ⟨e, he⟩ := Option.isSome_iff_exists.1 h1
    have hmem : e ∈ expire t c := List.mem_of_find?_eq_some he
    have hkey : e.key = k := by simpa using List.find?_some he
    have hlt : (removeKey k (expire t c)).length < (expire t c).length := by
      apply List.length_filter_lt_length_iff_exists.2
      exact ⟨e, hmem, by simp [hkey]⟩
    simp only [List.length_append, List.length_cons, List.length_nil]
    omega
  · rw [if_neg h1]
    by_cases h2 : maxsize ≤ (expire t c).length
    · rw [if_pos h2]
      simp only [List.length_append, List.length_drop, List.length_cons,
        List.length_nil]
      omega
    · rw [if_neg h2]
      simp only [List.length_append, List.length_cons, List.length_nil]
      omega

theorem setItemE_eq_ok {β : Type _} (t : Nat) (k : String) (v : β)
    (c : TTLState β) :
    setItemE t k v c = .ok (setItem t k v c) := by
  unfold setItemE setItem
  rw [if_neg (by decide : ¬ maxsize < 1)]
  by_cases h1 : (findEntry k (expire t c)).isSome
  · rw [if_pos h1, if_pos h1]
  · rw [if_neg h1, if_neg h1]
    by_cases h2 : maxsize ≤ (expire t c).length
    · rw [if_pos h2, if_pos h2]
      cases hc : expire t c with
      | nil =>
          rw [hc] at h2
          simp [maxsize] at h2
      | cons a rest => rfl
    · rw [if_neg h2, if_neg h2]

theorem get_cached_posts_eq_getItem {α : Type _} (t u : Nat)
    (c : PostsCache α) :
    get_cached_posts t u c = getItem t (get_user_posts_cache_key u) c := by
  unfold get_cached_posts
  cases getItem t (get_user_posts_cache_key u) c <;> rfl

theorem invalidate_cases {α : Type _} (t u : Nat) (c : PostsCache α) :
    invalidate_user_posts_cache t u c = c
      ∨ invalidate_user_posts_cache t u c
          = removeKey (get_user_posts_cache_key u) c := by
  unfold invalidate_user_posts_cache delItem
  cases findEntry (get_user_posts_cache_key u) c
  · exact Or.inl rfl
  · exact Or.inr rfl

theorem findEntry_invalidate_ne {α : Type _} {u v : Nat}
    (h : get_user_posts_cache_key v ≠ get_user_posts_cache_key u)
    (t : Nat) (c : PostsCache α) :
    findEntry (get_user_posts_cache_key v) (invalidate_user_posts_cache t u c)
      = findEntry (get_user_posts_cache_key v) c := by
  rcases invalidate_cases t u c with h' | h'
  · rw [h']
  · rw [h', findEntry_removeKey_ne h]

theorem findEntry_invalidate_self {α : Type _} (t u : Nat)
    (c : PostsCache α) :
    findEntry (get_user_posts_cache_key u) (invalidate_user_posts_cache t u c)
      = none := by
  unfold invalidate_user_posts_cache delItem
  cases hf : findEntry (get_user_posts_cache_key u) c with
  | none => simpa using hf
  | some e =>
      simp only
      apply findEntry_eq_none_iff.2
      intro x hx
      exact (mem_removeKey hx).2

theorem invalidate_of_absent {α : Type _} {t u : Nat} {c : PostsCache α}
    (h : findEntry (get_user_posts_cache_key u) c = none) :
    invalidate_user_posts_cache t u c = c := by
  unfold invalidate_user_posts_cache delItem
  rw [h]

theorem invalidateE_eq_ok {α : Type _} (t u : Nat) (c : PostsCache α) :
    invalidate_user_posts_cacheE t u c
      = .ok (invalidate_user_posts_cache t u c) := by
  unfold invalidate_user_posts_cacheE invalidate_user_posts_cache delItem
  cases findEntry (get_user_posts_cache_key u) c with
  | none => rfl
  | some e =>
      by_cases h : t < e.expires
      · simp [h]
      · simp [h]

theorem findEntry_eq_some_of_unique {β : Type _} {k : String} {e : Entry β}
    {c : TTLState β} (hwf : c.Pairwise (fun a b => a.key ≠ b.key))
    (he : e ∈ c) (hk : e.key = k) :
    findEntry k c = some e := by
  induction c with
  | nil => cases he
  | cons a l ih =>
      rcases List.pairwise_cons.1 hwf with ⟨ha, hl⟩
      by_cases hak : a.key = k
      · rcases List.mem_cons.1 he with rfl | hel
        · simp [findEntry, List.find?_cons, hak]
        · exact absurd (hak.trans hk.symm) (ha e hel)
      · rcases List.mem_cons.1 he with rfl | hel
        · exact absurd hk hak
        · have : findEntry k l = some e := ih hl hel
          simpa [findEntry, List.find?_cons, hak] using this

theorem getItem_expire_eq {β : Type _} {t' t : Nat} (h : t' ≤ t) (k : String)
    (c : TTLState β) (hwf : c.Pairwise (fun a b => a.key ≠ b.key)) :
    getItem t k (expire t' c) = getItem t k c := by
  cases hf : findEntry k c with
  | none =>
      have hnone : findEntry k (expire t' c) = none := by
        apply findEntry_eq_none_iff.2
        intro x hx
        exact findEntry_eq_none_iff.1 hf x (mem_expire hx).1
      rw [getItem_eq_none_of_findEntry_none hnone,
        getItem_eq_none_of_findEntry_none hf]
  | some e =>
      have he : e ∈ c := List.mem_of_find?_eq_some hf
      have hk : e.key = k := by simpa using List.find?_some hf
      by_cases hl : t' < e.expires
      · have he2 : e ∈ expire t' c := List.mem_filter.2 ⟨he, by simpa using hl⟩
        have hf2 : findEntry k (expire t' c) = some e :=
          findEntry_eq_some_of_unique (hwf.filter _) he2 hk
        unfold getItem getItemRaw
        rw [hf2, hf]
      · have hnone : findEntry k (expire t' c) = none := by
          apply findEntry_eq_none_iff.2
          intro x hx hxk
          have hxc := (mem_expire hx).1
          have hxe := (mem_expire hx).2
          have hfx : findEntry k c = some x :=
            findEntry_eq_some_of_unique hwf hxc hxk
          rw [hf] at hfx
          injection hfx with hex
          rw [hex] at hl
          exact hl hxe
        have hdead : getItem t k c = none := by
          apply getItem_eq_none_of_dead
          intro x hx hxk
          have hfx : findEntry k c = some x :=
            findEntry_eq_some_of_unique hwf hx hxk
          rw [hf] at hfx
          injection hfx with hex
          rw [← hex]
          omega
        rw [getItem_eq_none_of_findEntry_none hnone, hdead]

theorem findEntry_singleton_ne {β : Type _} {k k' : String} (h : k' ≠ k)
    (v : β) (x : Nat) :
    findEntry k' [(⟨k, v, x⟩ : Entry β)] = none := by
  apply findEntry_eq_none_iff.2
  intro e he
  simp at he
  rw [he]
  exact fun hkk => h hkk.symm

theorem getItem_setItem_ne {β : Type _} {k k' : String} (hkk : k' ≠ k)
    (t : Nat) (v : β) (c : TTLState β)
    (hwf : c.Pairwise (fun a b => a.key ≠ b.key)) :
    getItem t k' (setItem t k v c) = getItem t k' c
      ∨ getItem t k' (setItem t k v c) = none := by
  have hA : getItem t k' (expire t c) = getItem t k' c :=
    getItem_expire_eq le_rfl k' c hwf
  unfold setItem
  by_cases h1 : (findEntry k (expire t c)).isSome
  · left
    rw [if_pos h1]
    have hfe : findEntry k' (removeKey k (expire t c) ++ [⟨k, v, t + ttl⟩])
        = findEntry k' (expire t c) := by
      rw [findEntry_append, findEntry_singleton_ne hkk, Option.or_none,
        findEntry_removeKey_ne hkk]
    rw [getItem_congr hfe, hA]
  · rw [if_neg h1]
    by_cases h2 : maxsize ≤ (expire t c).length
    · rw [if_pos h2]
      cases hc : expire t c with
      | nil =>
          rw [hc] at h2
          simp [maxsize] at h2
      | cons a rest =>
          by_cases hak : a.key = k'
          · right
            apply getItem_eq_none_of_findEntry_none
            have hwf2 : (a :: rest).Pairwise (fun x y => x.key ≠ y.key) := by
              rw [← hc]
              exact hwf.filter _
            rcases List.pairwise_cons.1 hwf2 with ⟨hhead, -⟩
            have hrest : findEntry k' rest = none := by
              apply findEntry_eq_none_iff.2
              intro x hx hxk
              exact hhead x hx (by rw [hak, hxk])
            show findEntry k' ((a :: rest).drop 1 ++ [⟨k, v, t + ttl⟩]) = none
            rw [List.drop_one, List.tail_cons, findEntry_append, hrest,
              findEntry_singleton_ne hkk]
            rfl
          · left
            have hfe : findEntry k' ((a :: rest).drop 1 ++ [⟨k, v, t + ttl⟩])
                = findEntry k' (a :: rest) := by
              rw [List.drop_one, List.tail_cons, findEntry_append,
                findEntry_singleton_ne hkk, Option.or_none]
              unfold findEntry
              rw [List.find?_cons]
              have : (a.key == k') = false := by
                simp [hak]
              rw [this]
            rw [getItem_congr hfe, ← hc, hA]
    · rw [if_neg h2]
      left
      have hfe : findEntry k' (expire t c ++ [⟨k, v, t + ttl⟩])
          = findEntry k' (expire t c) := by
        rw [findEntry_append, findEntry_singleton_ne hkk, Option.or_none]
      rw [getItem_congr hfe, hA]

theorem runOps_nil {α : Type _} (c : PostsCache α) : runOps ([] : List (Nat × CacheOp α)) c = c := rfl

theorem runOps_cons {α : Type _} (p : Nat × CacheOp α)
    (tr : List (Nat × CacheOp α)) (c : PostsCache α) :
    runOps (p :: tr) c = runOps tr (applyOp p c) := rfl

theorem findEntry_applyOp_other {α : Type _} {u : Nat} {p : Nat × CacheOp α}
    (hput : ∀ v d, p.2 ≠ CacheOp.put v d)
    (hinv : p.2 ≠ CacheOp.invalidate u)
    (hcl : p.2 ≠ CacheOp.clear) (c : PostsCache α) :
    findEntry (get_user_posts_cache_key u) (applyOp p c)
      = findEntry (get_user_posts_cache_key u) c := by
  rcases p with ⟨t, op⟩
  cases op with
  | put v d => exact absurd rfl (hput v d)
  | invalidate v =>
      have hvu : u ≠ v := by
        intro hh
        exact hinv (by rw [hh])
      exact findEntry_invalidate_ne (get_user_posts_cache_key_ne hvu) t c
  | clear => exact absurd rfl hcl

theorem findEntry_runOps_other {α : Type _} {u : Nat}
    (tr : List (Nat × CacheOp α))
    (hput : ∀ p ∈ tr, ∀ v d, p.2 ≠ CacheOp.put v d)
    (hinv : ∀ p ∈ tr, p.2 ≠ CacheOp.invalidate u)
    (hcl : ∀ p ∈ tr, p.2 ≠ CacheOp.clear) (c : PostsCache α) :
    findEntry (get_user_posts_cache_key u) (runOps tr c)
      = findEntry (get_user_posts_cache_key u) c := by
  induction tr generalizing c with
  | nil => rfl
  | cons p tr ih =>
      rw [runOps_cons,
        ih (fun q hq => hput q (List.mem_cons_of_mem p hq))
          (fun q hq => hinv q (List.mem_cons_of_mem p hq))
          (fun q hq => hcl q (List.mem_cons_of_mem p hq)),
        findEntry_applyOp_other (hput p (List.mem_cons_self p tr))
          (hinv p (List.mem_cons_self p tr)) (hcl p (List.mem_cons_self p tr))]

theorem key_absent_applyOp {α : Type _} {u : Nat} {p : Nat × CacheOp α}
    (hput : ∀ d, p.2 ≠ CacheOp.put u d) {c : PostsCache α}
    (h : ∀ x ∈ c, x.key ≠ get_user_posts_cache_key u) :
    ∀ x ∈ applyOp p c, x.key ≠ get_user_posts_cache_key u := by
  rcases p with ⟨t, op⟩
  cases op with
  | put v d =>
      intro x hx
      rcases mem_setItem hx with hxc | hxe
      · exact h x hxc
      · have hvu : v ≠ u := by
          intro hh
          exact hput d (by rw [hh])
        rw [hxe]
        exact get_user_posts_cache_key_ne hvu
  | invalidate v =>
      intro x hx
      simp only [applyOp] at hx
      rcases invalidate_cases t v c with he | he <;> rw [he] at hx
      · exact h x hx
      · exact h x (mem_removeKey hx).1
  | clear =>
      intro x hx
      simp only [applyOp, clear_all_cache, clearAll] at hx
      cases hx

theorem key_absent_runOps {α : Type _} {u : Nat}
    (tr : List (Nat × CacheOp α))
    (hput : ∀ p ∈ tr, ∀ d, p.2 ≠ CacheOp.put u d) (c : PostsCache α)
    (h0 : ∀ x ∈ c, x.key ≠ get_user_posts_cache_key u) :
    ∀ x ∈ runOps tr c, x.key ≠ get_user_posts_cache_key u := by
  induction tr generalizing c with
  | nil => exact h0
  | cons p tr ih =>
      rw [runOps_cons]
      exact ih (fun q hq => hput q (List.mem_cons_of_mem p hq)) _
        (key_absent_applyOp (hput p (List.mem_cons_self p tr)) h0)

theorem length_applyOp_le {α : Type _} (p : Nat × CacheOp α)
    (c : PostsCache α) (h : c.length ≤ maxsize) :
    (applyOp p c).length ≤ maxsize := by
  rcases p with ⟨t, op⟩
  cases op with
  | put v d => exact setItem_length_le t _ _ c h
  | invalidate v =>
      simp only [applyOp]
      rcases invalidate_cases t v c with he | he <;> rw [he]
      · exact h
      · exact le_trans (List.length_filter_le _ _) h
  | clear =>
      simp only [applyOp, clear_all_cache, clearAll]
      simp

theorem length_runOps_le {α : Type _} (tr : List (Nat × CacheOp α))
    (c : PostsCache α) (h : c.length ≤ maxsize) :
    (runOps tr c).length ≤ maxsize := by
  induction tr generalizing c with
  | nil => exact h
  | cons p tr ih =>
      rw [runOps_cons]
      exact ih _ (length_applyOp_le p c h)

/-! ### Claim theorems -/

/-- C1: after `cache_user_posts(U, L)` at time `t0`, a `get_cached_posts(U)`
performed at a time `tg` before the 300-second TTL has elapsed, with no
intervening `invalidate_user_posts_cache(U)` and no `clear_all_cache()`
(nor any other write) on the shared cache in between, returns a hit whose
cached payload is exactly `L`. -/
theorem C1_write_then_read {α : Type} (u : Nat) (L : α) (t0 tg : Nat)
    (c : PostsCache α) (tr : List (Nat × CacheOp α))
    (hput : ∀ p ∈ tr, ∀ v d, p.2 ≠ CacheOp.put v d)
    (hinv : ∀ p ∈ tr, p.2 ≠ CacheOp.invalidate u)
    (hcl : ∀ p ∈ tr, p.2 ≠ CacheOp.clear)
    (_h0 : t0 ≤ tg) (httl : tg < t0 + 300) :
    get_cached_posts tg u (runOps tr (cache_user_posts t0 u L c))
      = some ⟨L, t0, t0 + 300⟩ := by
  rw [get_cached_posts_eq_getItem]
  have hfe : findEntry (get_user_posts_cache_key u)
      (runOps tr (cache_user_posts t0 u L c))
      = some ⟨get_user_posts_cache_key u, ⟨L, t0, t0 + 300⟩, t0 + ttl⟩ := by
    rw [findEntry_runOps_other tr hput hinv hcl, cache_user_posts,
      findEntry_setItem_self]
  unfold getItem getItemRaw
  rw [hfe]
  have hlt : tg < t0 + ttl := httl
  simp [hlt]

/-- Witness for C1 at concrete inputs: user 42, payload 99, written at
time 0, an unrelated invalidation of user 7 at time 50 in between, read
back at time 100. -/
theorem C1_witness :
    get_cached_posts 100 42
        (runOps [(50, CacheOp.invalidate 7)]
          (cache_user_posts 0 42 (99 : Nat) []))
      = some ⟨99, 0, 300⟩ :=
  C1_write_then_read 42 99 0 100 [] [(50, CacheOp.invalidate 7)]
    (by
      intro p hp v d
      rw [List.mem_singleton.1 hp]
      simp)
    (by
      intro p hp
      rw [List.mem_singleton.1 hp]
      decide)
    (by
      intro p hp
      rw [List.mem_singleton.1 hp]
      decide)
    (by decide) (by decide)

/-- C2: a write at time `t` stores the entry with link expiry fixed at
`t + 300` (and `expires_at = t + 300` inside the stored wrapper); a read
at any time `t' ≥ t + 300` returns absent, whether or not an expiry sweep
has run in between. -/
theorem C2_ttl_expiry {α : Type} (u : Nat) (L : α) (t t' ts : Nat)
    (c : PostsCache α) (h : t + 300 ≤ t') :
    get_cached_posts t' u (cache_user_posts t u L c) = none
    ∧ get_cached_posts t' u (expire ts (cache_user_posts t u L c)) = none
    ∧ findEntry (get_user_posts_cache_key u) (cache_user_posts t u L c)
        = some ⟨get_user_posts_cache_key u, ⟨L, t, t + 300⟩, t + 300⟩ := by
  have hfe : findEntry (get_user_posts_cache_key u) (cache_user_posts t u L c)
      = some ⟨get_user_posts_cache_key u, ⟨L, t, t + 300⟩, t + 300⟩ := by
    rw [cache_user_posts, findEntry_setItem_self]
    rfl
  have hdead : ∀ x ∈ cache_user_posts t u L c,
      x.key = get_user_posts_cache_key u → x.expires ≤ t' := by
    intro x hx hxk
    obtain ⟨rest, heq, hsub, hkey⟩ :=
      setItem_split t (get_user_posts_cache_key u)
        (⟨L, t, t + 300⟩ : CachedEntry α) c
    rw [cache_user_posts, heq] at hx
    rcases List.mem_append.1 hx with h1 | h1
    · exact absurd hxk (hkey x h1)
    · simp at h1
      rw [h1]
      show t + ttl ≤ t'
      have hT : ttl = 300 := rfl
      omega
  refine ⟨?_, ?_, hfe⟩
  · rw [get_cached_posts_eq_getItem]
    exact getItem_eq_none_of_dead hdead
  · rw [get_cached_posts_eq_getItem]
    exact getItem_eq_none_of_dead fun x hx hk => hdead x (mem_expire hx).1 hk

/-- Witness for C2 at concrete inputs: user 1, payload 5, written at time
0, read back at time 300 (with and without a sweep at time 42). -/
theorem C2_witness :
    (0 + 300 ≤ 300)
    ∧ (get_cached_posts 300 1 (cache_user_posts 0 1 (5 : Nat) []) = none
      ∧ get_cached_posts 300 1
          (expire 42 (cache_user_posts 0 1 (5 : Nat) [])) = none
      ∧ findEntry (get_user_posts_cache_key 1)
          (cache_user_posts 0 1 (5 : Nat) [])
        = some ⟨get_user_posts_cache_key 1, ⟨5, 0, 0 + 300⟩, 0 + 300⟩) :=
  ⟨by decide, C2_ttl_expiry 1 5 0 300 42 [] (by decide)⟩

/-- C3: after a write for user `u` followed by
`invalidate_user_posts_cache(u)`, a read for `u` returns absent;
invalidating an absent key leaves the cache unchanged and raises no
error, and in particular a second consecutive invalidation is a no-op
that also raises no error. -/
theorem C3_invalidation {α : Type} (u : Nat) (L : α) (t0 t1 t2 t3 t4 : Nat)
    (c cA cB : PostsCache α)
    (habsent : findEntry (get_user_posts_cache_key u) cA = none) :
    get_cached_posts t2 u
        (invalidate_user_posts_cache t1 u (cache_user_posts t0 u L c)) = none
    ∧ invalidate_user_posts_cache t2 u cA = cA
    ∧ invalidate_user_posts_cacheE t2 u cA = .ok cA
    ∧ invalidate_user_posts_cache t4 u (invalidate_user_posts_cache t3 u cB)
        = invalidate_user_posts_cache t3 u cB
    ∧ invalidate_user_posts_cacheE t4 u cB
        = .ok (invalidate_user_posts_cache t4 u cB) := by
  refine ⟨?_, invalidate_of_absent habsent, ?_, ?_, invalidateE_eq_ok t4 u cB⟩
  · rw [get_cached_posts_eq_getItem]
    exact getItem_eq_none_of_findEntry_none (findEntry_invalidate_self t1 u _)
  · rw [invalidateE_eq_ok, invalidate_of_absent habsent]
  · exact invalidate_of_absent (findEntry_invalidate_self t3 u cB)

/-- Witness for C3 at concrete inputs: user 9, payload 4, absent-key cache
empty. -/
theorem C3_witness :
    (findEntry (get_user_posts_cache_key 9) ([] : PostsCache Nat) = none)
    ∧ (get_cached_posts 3 9
        (invalidate_user_posts_cache 2 9 (cache_user_posts 1 9 (4 : Nat) []))
          = none
      ∧ invalidate_user_posts_cache 3 9 ([] : PostsCache Nat) = []
      ∧ invalidate_user_posts_cacheE 3 9 ([] : PostsCache Nat) = .ok []
      ∧ invalidate_user_posts_cache 5 9
          (invalidate_user_posts_cache 4 9 ([] : PostsCache Nat))
        = invalidate_user_posts_cache 4 9 ([] : PostsCache Nat)
      ∧ invalidate_user_posts_cacheE 5 9 ([] : PostsCache Nat)
        = .ok (invalidate_user_posts_cache 5 9 ([] : PostsCache Nat))) :=
  ⟨rfl, C3_invalidation 9 4 1 2 3 4 5 [] [] [] rfl⟩

/-- C4: over any sequence of cache operations started from the empty
cache, the reported `cache_size` never exceeds the configured capacity
1000; and a write of a fresh key into a cache whose surviving entries are
exactly at capacity evicts exactly one entry — deterministically the
oldest surviving link — before appending the new one, leaving the size at
capacity. -/
theorem C4_capacity_bound {α : Type} (tr : List (Nat × CacheOp α))
    (t t' : Nat) (k : String) (w : CachedEntry α) (c : PostsCache α)
    (hfull : (expire t' c).length = maxsize)
    (hnew : findEntry k (expire t' c) = none) :
    (get_cache_info t (runOps tr ([] : PostsCache α))).cache_size ≤ 1000
    ∧ setItem t' k w c = (expire t' c).drop 1 ++ [⟨k, w, t' + ttl⟩]
    ∧ (setItem t' k w c).length = maxsize := by
  have hevict : setItem t' k w c
      = (expire t' c).drop 1 ++ [⟨k, w, t' + ttl⟩] := by
    unfold setItem
    rw [if_neg (by simp [hnew]), if_pos (by rw [hfull])]
  refine ⟨?_, hevict, ?_⟩
  · show cacheLen t (runOps tr ([] : PostsCache α)) ≤ 1000
    unfold cacheLen
    calc (expire t (runOps tr ([] : PostsCache α))).length
        ≤ (runOps tr ([] : PostsCache α)).length := List.length_filter_le _ _
      _ ≤ maxsize := length_runOps_le tr [] (by simp)
  · rw [hevict]
    have hm : maxsize = 1000 := rfl
    simp only [List.length_append, List.length_drop, List.length_cons,
      List.length_nil, hfull]
    omega

/-- Witness for C4 at concrete inputs: `fullCache` holds 1000 distinct
live entries, and writing the fresh key of user 1000 at time 0 evicts
exactly the oldest entry. -/
theorem C4_witness :
    ((expire 0 fullCache).length = maxsize
      ∧ findEntry (get_user_posts_cache_key 1000) (expire 0 fullCache) = none)
    ∧ ((get_cache_info 5 (runOps [(0, CacheOp.put 3 (7 : Nat))]
          ([] : PostsCache Nat))).cache_size ≤ 1000
      ∧ setItem 0 (get_user_posts_cache_key 1000)
          (⟨7, 0, 300⟩ : CachedEntry Nat) fullCache
        = (expire 0 fullCache).drop 1
            ++ [⟨get_user_posts_cache_key 1000, ⟨7, 0, 300⟩, 0 + ttl⟩]
      ∧ (setItem 0 (get_user_posts_cache_key 1000)
          (⟨7, 0, 300⟩ : CachedEntry Nat) fullCache).length = maxsize) := by
  have hall : expire 0 fullCache = fullCache := by
    apply List.filter_eq_self.2
    intro a ha
    rcases List.mem_map.1 ha with ⟨i, -, rfl⟩
    rfl
  have hfull : (expire 0 fullCache).length = maxsize := by
    rw [hall]
    simp [fullCache, maxsize]
  have hnew : findEntry (get_user_posts_cache_key 1000)
      (expire 0 fullCache) = none := by
    apply findEntry_eq_none_iff.2
    intro x hx
    rcases List.mem_map.1 (mem_expire hx).1 with ⟨i, hi, rfl⟩
    have hilt : i < 1000 := List.mem_range.1 hi
    exact get_user_posts_cache_key_ne (by omega)
  exact ⟨⟨hfull, hnew⟩,
    C4_capacity_bound [(0, CacheOp.put 3 (7 : Nat))] 5 0
      (get_user_posts_cache_key 1000) ⟨7, 0, 300⟩ fullCache hfull hnew⟩

/-- C5: in every execution of `create_post` and of `delete_post`, the
cache invalidation for the owning user is issued only after the database
commit has succeeded (never before it), and on every execution whose
database mutation succeeds the invalidation is part of the same
operation. -/
theorem C5_invalidate_after_commit (cr : CommitResult) (db : List Post)
    (u pid newId createdAt t : Nat) (pt : String) (p0 : Post)
    (cache : PostsCache PostsListResponse)
    (hfound : get_post_by_id db pid u = some p0) :
    invalidate_after_commit u
        (create_post cr db u pt newId createdAt t cache).events false = true
    ∧ invalidate_after_commit u
        (delete_post cr db pid u t cache).events false = true
    ∧ DbEvent.invalidateCache u
        ∈ (create_post .ok db u pt newId createdAt t cache).events
    ∧ DbEvent.invalidateCache u
        ∈ (delete_post .ok db pid u t cache).events := by
  unfold get_post_by_id at hfound
  refine ⟨?_, ?_, ?_, ?_⟩
  · cases cr <;> rfl
  · unfold delete_post
    rw [hfound]
    cases cr <;> rfl
  · simp [create_post]
  · unfold delete_post
    rw [hfound]
    simp

/-- Witness for C5 at concrete inputs: a database holding post 1 of
user 2, deleted/created by user 2. -/
theorem C5_witness :
    (get_post_by_id [⟨1, 2, "x", 0, 0⟩] 1 2 = some ⟨1, 2, "x", 0, 0⟩)
    ∧ (invalidate_after_commit 2
          (create_post .ok [⟨1, 2, "x", 0, 0⟩] 2 "y" 3 9 4 []).events false
            = true
      ∧ invalidate_after_commit 2
          (delete_post .ok [⟨1, 2, "x", 0, 0⟩] 1 2 4 []).events false = true
      ∧ DbEvent.invalidateCache 2
          ∈ (create_post .ok [⟨1, 2, "x", 0, 0⟩] 2 "y" 3 9 4 []).events
      ∧ DbEvent.invalidateCache 2
          ∈ (delete_post .ok [⟨1, 2, "x", 0, 0⟩] 1 2 4 []).events) :=
  ⟨rfl, C5_invalidate_after_commit .ok [⟨1, 2, "x", 0, 0⟩] 2 1 3 9 4 "y"
    ⟨1, 2, "x", 0, 0⟩ [] rfl⟩

/-- C6: a read for a user no operation ever wrote (from the empty starting
state, or after a `clear_all_cache()`) returns absent and raises nothing;
and none of the five public cache operations can fail its caller — each
one, with the underlying library's exceptions made explicit, always
returns normally. -/
theorem C6_cache_never_fails {α : Type} (u u2 t t2 : Nat) (d : α)
    (tr : List (Nat × CacheOp α)) (c cE : PostsCache α)
    (hput : ∀ p ∈ tr, ∀ x, p.2 ≠ CacheOp.put u x) :
    get_cached_posts t u (runOps tr ([] : PostsCache α)) = none
    ∧ get_cached_posts t u (runOps tr (clear_all_cache c)) = none
    ∧ get_cached_postsE t2 u2 cE = .ok (get_cached_posts t2 u2 cE)
    ∧ cache_user_postsE t2 u2 d cE = .ok (cache_user_posts t2 u2 d cE)
    ∧ invalidate_user_posts_cacheE t2 u2 cE
        = .ok (invalidate_user_posts_cache t2 u2 cE)
    ∧ clear_all_cacheE cE = .ok (clear_all_cache cE)
    ∧ get_cache_infoE t2 cE = .ok (get_cache_info t2 cE) := by
  have habs : ∀ x ∈ runOps tr ([] : PostsCache α),
      x.key ≠ get_user_posts_cache_key u :=
    key_absent_runOps tr hput [] (by intro x hx; cases hx)
  have hmiss : get_cached_posts t u (runOps tr ([] : PostsCache α)) = none := by
    rw [get_cached_posts_eq_getItem]
    exact getItem_eq_none_of_findEntry_none (findEntry_eq_none_iff.2 habs)
  exact ⟨hmiss, hmiss, rfl, setItemE_eq_ok t2 _ _ cE, invalidateE_eq_ok t2 u2 cE,
    rfl, rfl⟩

/-- Witness for C6 at concrete inputs: user 5 is never written by the
trace that writes user 7. -/
theorem C6_witness :
    get_cached_posts 1 5
        (runOps [(0, CacheOp.put 7 (1 : Nat))] ([] : PostsCache Nat)) = none
    ∧ get_cached_posts 1 5
        (runOps [(0, CacheOp.put 7 (1 : Nat))] (clear_all_cache [])) = none
    ∧ get_cached_postsE 2 6 ([] : PostsCache Nat)
        = .ok (get_cached_posts 2 6 [])
    ∧ cache_user_postsE 2 6 (3 : Nat) [] = .ok (cache_user_posts 2 6 3 [])
    ∧ invalidate_user_posts_cacheE 2 6 ([] : PostsCache Nat)
        = .ok (invalidate_user_posts_cache 2 6 [])
    ∧ clear_all_cacheE ([] : PostsCache Nat) = .ok (clear_all_cache [])
    ∧ get_cache_infoE 2 ([] : PostsCache Nat)
        = .ok (get_cache_info 2 ([] : PostsCache Nat)) :=
  C6_cache_never_fails 5 6 1 2 3 [(0, CacheOp.put 7 (1 : Nat))] [] []
    (by
      intro p hp x
      rw [List.mem_singleton.1 hp]
      simp)

/-- C7: `clear_all_cache()` empties the cache — the reported size is 0 and
every read returns absent — and clearing after any number of writes always
yields the empty cache. -/
theorem C7_clear {α : Type} (t u : Nat) (c : PostsCache α)
    (tr : List (Nat × CacheOp α)) :
    (get_cache_info t (clear_all_cache c)).cache_size = 0
    ∧ get_cached_posts t u (clear_all_cache c) = none
    ∧ clear_all_cache (runOps tr c) = ([] : PostsCache α)
    ∧ (get_cache_info t (clear_all_cache (runOps tr c))).cache_size = 0 :=
  ⟨rfl, rfl, rfl, rfl⟩

/-- C9: distinct user ids derive distinct cache keys, so
`invalidate_user_posts_cache(u)` leaves user `v`'s entry exactly
unchanged, and `cache_user_posts(u, L)` leaves user `v`'s observable entry
unchanged except possibly removing it through capacity eviction (stated
for a cache with the at-most-one-entry-per-key invariant every reachable
state satisfies). -/
theorem C9_user_isolation {α : Type} (u v : Nat) (t tI : Nat) (L : α)
    (c cI : PostsCache α) (huv : u ≠ v)
    (hwf : c.Pairwise (fun a b => a.key ≠ b.key)) :
    get_user_posts_cache_key u ≠ get_user_posts_cache_key v
    ∧ findEntry (get_user_posts_cache_key v)
        (invalidate_user_posts_cache tI u cI)
      = findEntry (get_user_posts_cache_key v) cI
    ∧ (get_cached_posts t v (cache_user_posts t u L c)
          = get_cached_posts t v c
        ∨ get_cached_posts t v (cache_user_posts t u L c) = none) := by
  have hk := get_user_posts_cache_key_ne huv
  refine ⟨hk, findEntry_invalidate_ne (fun h => hk h.symm) tI cI, ?_⟩
  simp only [get_cached_posts_eq_getItem]
  exact getItem_setItem_ne (fun h => hk h.symm) t
    (⟨L, t, t + 300⟩ : CachedEntry α) c hwf

/-- Witness for C9 at concrete inputs: users 3 and 4, user 4 already
cached, user 3 written. -/
theorem C9_witness :
    ((3 ≠ 4)
      ∧ ([(⟨get_user_posts_cache_key 4, ⟨8, 0, 300⟩, 300⟩ : Entry (CachedEntry Nat))].Pairwise
          (fun a b => a.key ≠ b.key)))
    ∧ (get_user_posts_cache_key 3 ≠ get_user_posts_cache_key 4
      ∧ findEntry (get_user_posts_cache_key 4)
          (invalidate_user_posts_cache 1 3
            [⟨get_user_posts_cache_key 4, ⟨8, 0, 300⟩, 300⟩])
        = findEntry (get_user_posts_cache_key 4)
            [⟨get_user_posts_cache_key 4, ⟨8, 0, 300⟩, 300⟩]
      ∧ (get_cached_posts 2 4 (cache_user_posts 2 3 (6 : Nat)
            [⟨get_user_posts_cache_key 4, ⟨8, 0, 300⟩, 300⟩])
          = get_cached_posts 2 4
              [⟨get_user_posts_cache_key 4, ⟨8, 0, 300⟩, 300⟩]
        ∨ get_cached_posts 2 4 (cache_user_posts 2 3 (6 : Nat)
            [⟨get_user_posts_cache_key 4, ⟨8, 0, 300⟩, 300⟩]) = none)) :=
  ⟨⟨by decide, List.pairwise_singleton _ _⟩,
    C9_user_isolation 3 4 2 1 6
      [⟨get_user_posts_cache_key 4, ⟨8, 0, 300⟩, 300⟩]
      [⟨get_user_posts_cache_key 4, ⟨8, 0, 300⟩, 300⟩]
      (by decide) (List.pairwise_singleton _ _)⟩

/-- C10: when no post with the given id owned by the given user exists,
`delete_post` returns `False` without committing anything, without
invalidating any cache entry, and leaving database and cache untouched;
and (given the primary-key uniqueness of post ids) a post owned by a
different user is never deleted by `delete_post`. -/
theorem C10_delete_not_found (cr : CommitResult) (db : List Post)
    (pid u t : Nat) (cache : PostsCache PostsListResponse)
    (hnone : ∀ p ∈ db, ¬(p.id = pid ∧ p.user_id = u))
    (hids : ∀ p ∈ db, ∀ q ∈ db, p.id = q.id → p = q) :
    (delete_post cr db pid u t cache).result = .ok false
    ∧ (delete_post cr db pid u t cache).db = db
    ∧ (delete_post cr db pid u t cache).cache = cache
    ∧ (delete_post cr db pid u t cache).events = []
    ∧ ∀ (cr2 : CommitResult) (pid2 : Nat) (q : Post), q ∈ db →
        q.user_id ≠ u → q ∈ (delete_post cr2 db pid2 u t cache).db := by
  have hfind : db.find? (fun p => p.id == pid && p.user_id == u) = none := by
    rw [List.find?_eq_none]
    intro p hp
    have hnp := hnone p hp
    simp only [Bool.and_eq_true, beq_iff_eq]
    tauto
  refine ⟨?_, ?_, ?_, ?_, ?_⟩
  · unfold delete_post
    rw [hfind]
  · unfold delete_post
    rw [hfind]
  · unfold delete_post
    rw [hfind]
  · unfold delete_post
    rw [hfind]
  · intro cr2 pid2 q hq hqu
    unfold delete_post
    cases hf : db.find? (fun p => p.id == pid2 && p.user_id == u) with
    | none => exact hq
    | some post =>
        have hpostu : post.user_id = u := by
          have hps := List.find?_some hf
          simp only [Bool.and_eq_true, beq_iff_eq] at hps
          exact hps.2
        have hpmem : post ∈ db := List.mem_of_find?_eq_some hf
        cases cr2 with
        | ok =>
            simp only
            apply List.mem_filter.2
            refine ⟨hq, ?_⟩
            simp only [bne_iff_ne, ne_eq]
            intro hqid
            exact hqu (by rw [hids q hq post hpmem hqid, hpostu])
        | integrityError => exact hq
        | otherError => exact hq

/-- Witness for C10 at concrete inputs: database holding only post 1 of
user 5, attempted deletion of the nonexistent post 2. -/
theorem C10_witness :
    ((∀ p ∈ [(⟨1, 5, "a", 0, 0⟩ : Post)], ¬(p.id = 2 ∧ p.user_id = 5))
      ∧ (∀ p ∈ [(⟨1, 5, "a", 0, 0⟩ : Post)],
          ∀ q ∈ [(⟨1, 5, "a", 0, 0⟩ : Post)], p.id = q.id → p = q))
    ∧ ((delete_post .ok [⟨1, 5, "a", 0, 0⟩] 2 5 0 []).result = .ok false
      ∧ (delete_post .ok [⟨1, 5, "a", 0, 0⟩] 2 5 0 []).db = [⟨1, 5, "a", 0, 0⟩]
      ∧ (delete_post .ok [⟨1, 5, "a", 0, 0⟩] 2 5 0 []).cache = []
      ∧ (delete_post .ok [⟨1, 5, "a", 0, 0⟩] 2 5 0 []).events = []
      ∧ ∀ (cr2 : CommitResult) (pid2 : Nat) (q : Post),
          q ∈ [(⟨1, 5, "a", 0, 0⟩ : Post)] → q.user_id ≠ 5 →
          q ∈ (delete_post cr2 [⟨1, 5, "a", 0, 0⟩] pid2 5 0 []).db) := by
  have hnone : ∀ p ∈ [(⟨1, 5, "a", 0, 0⟩ : Post)],
      ¬(p.id = 2 ∧ p.user_id = 5) := by
    intro p hp
    rw [List.mem_singleton.1 hp]
    decide
  have hids : ∀ p ∈ [(⟨1, 5, "a", 0, 0⟩ : Post)],
      ∀ q ∈ [(⟨1, 5, "a", 0, 0⟩ : Post)], p.id = q.id → p = q := by
    intro p hp q hq
    rw [List.mem_singleton.1 hp, List.mem_singleton.1 hq]
    intro
    rfl
  exact ⟨⟨hnone, hids⟩,
    C10_delete_not_found .ok [⟨1, 5, "a", 0, 0⟩] 2 5 0 [] hnone hids⟩

end PostsCacheModel
